import Mathlib

/-!
Verification of the MessageSerialize binary codec.

The repository ships the codec as a single header, `serialize.h`; the sources
available here contain its demo harness (`main.cpp`), the project README
documents describing the wire format, and the build script, but not the header
itself.  The codec definitions below are therefore modelled from the
specification (wire tags, size prefixes, endianness policy, the record
length-framing and the protocol-evolution rules) and from the wire-format
layouts given in the README documents; the record classes (`Date`, `DataV1`,
`DataV2`, `Color`, `Log::LogType`, `AllData`) follow `main.cpp`.

Modelling conventions:
* an octet stream is a `List Nat` of byte values;
* the stream/healthy-flag error model of the C++ iostreams is rendered as
  `Except ParsingError`: a `.error` result corresponds to a cleared healthy
  flag plus a recorded last error, an `.ok` result to a healthy stream;
* floating point values are carried as their IEEE-754 bit patterns, which is
  faithful because the codec byte-swaps floats as raw bit patterns and never
  reinterprets them numerically;
* a value of a container of owned pointers is modelled by the sequence of
  pointees together with the pointer addresses; encoding depends only on the
  pointees.
-/

namespace serialize

/-- Host or stream byte order. Modelled from the spec: the Endianness Service
(spec section 4.2) of the missing `serialize.h`. -/
inductive Endianness where
  | big
  | little
deriving DecidableEq, Repr

/-- Parse error taxonomy. Modelled from the spec: the `serialize::ParsingError`
enumeration of the missing `serialize.h` (spec section 7 taxonomy). -/
inductive ParsingError where
  | typeMismatch
  | streamError
  | stringTooLong
  | sizeOverflow
  | invalid
  | endOfStream
deriving DecidableEq, Repr

/-- Wire tag `LITERAL` (source README `Type` enumeration). -/
def LITERAL : Nat := 1

/-- Wire tag `STRING`. -/
def STRING : Nat := 8

/-- Wire tag `WSTRING`. -/
def WSTRING : Nat := 9

/-- Wire tag `VECTOR`. -/
def VECTOR : Nat := 20

/-- Wire tag `MAP`. -/
def MAP : Nat := 21

/-- Wire tag `LIST`. -/
def LIST : Nat := 22

/-- Wire tag `SET`. -/
def SET : Nat := 23

/-- Wire tag `ENDIAN`. -/
def ENDIAN : Nat := 30

/-- Wire tag `USER_DEFINED`. -/
def USER_DEFINED : Nat := 31

/-- Big-endian (network order) octets of `n`, exactly `w` octets, most
significant first. -/
def beBytes : Nat → Nat → List Nat
  | 0, _ => []
  | w + 1, n => (n / 256 ^ w) :: beBytes w (n % 256 ^ w)

/-- Value of a big-endian octet list. -/
def beNat : List Nat → Nat
  | [] => 0
  | b :: bs => b * 256 ^ bs.length + beNat bs

/-- Octets of `n` in stream byte order `o`. Modelled from the spec: primitive
writes serialise in `stream_order` (spec section 4.2 swap policy). -/
def ordBytes (o : Endianness) (w n : Nat) : List Nat :=
  match o with
  | .big => beBytes w n
  | .little => (beBytes w n).reverse

/-- Value of an octet list read in stream byte order `o`. -/
def ordNat (o : Endianness) (bs : List Nat) : Nat :=
  match o with
  | .big => beNat bs
  | .little => beNat bs.reverse

mutual
/-- Wire shape of an expected value: what the hand-written `read()` sequence of
a record (and the typed `serialize::read` overloads of the missing
`serialize.h`) expects next on the stream. Modelled from the spec data model
(spec section 3): numeric literals of a given octet width, narrow and wide
strings, fixed-capacity char arrays, the dedicated ordered-bool encoding, the
four container shapes and user-defined records with an ordered field list. -/
inductive Shape where
  | literal (width : Nat)
  | str
  | wstr
  | charArr (cap : Nat)
  | vecBool
  | vec (elt : Shape)
  | lst (elt : Shape)
  | mp (kelt velt : Shape)
  | st (elt : Shape)
  | record (fields : ShapeList)
deriving DecidableEq
/-- Ordered list of field shapes of a user-defined record. -/
inductive ShapeList where
  | nil
  | cons (s : Shape) (ss : ShapeList)
deriving DecidableEq
end

mutual
/-- A serialisable value. `literal` carries a numeric primitive of `width`
octets as its unsigned bit pattern (floats travel as raw IEEE-754 bit
patterns); `str`/`wstr` carry code units; `charArr` carries the characters of
a fixed-capacity `char[cap]` buffer up to (not including) the terminator;
containers carry their elements in iteration order together with the element
shape (the C++ element type); `record` is a user-defined object, its fields in
the order its `write()`/`read()` visit them. -/
inductive Value where
  | literal (width : Nat) (bits : Nat)
  | str (cs : List Nat)
  | wstr (cs : List Nat)
  | charArr (cap : Nat) (cs : List Nat)
  | vecBool (bs : List Bool)
  | vec (elt : Shape) (elems : ValueList)
  | lst (elt : Shape) (elems : ValueList)
  | mp (kelt velt : Shape) (pairs : PairList)
  | st (elt : Shape) (elems : ValueList)
  | record (fields : ValueList)
deriving DecidableEq
/-- Ordered list of values (container elements or record fields). -/
inductive ValueList where
  | nil
  | cons (v : Value) (vs : ValueList)
deriving DecidableEq
/-- Ordered list of key/value pairs of a keyed mapping. -/
inductive PairList where
  | nil
  | cons (k v : Value) (ps : PairList)
deriving DecidableEq
end

/-- Number of elements of a `ValueList`. -/
def lengthVL : ValueList → Nat
  | .nil => 0
  | .cons _ vs => lengthVL vs + 1

/-- Number of key/value pairs of a `PairList`. -/
def lengthPL : PairList → Nat
  | .nil => 0
  | .cons _ _ ps => lengthPL ps + 1

/-- Plain list of the values of a `ValueList`. -/
def ValueList.toList : ValueList → List Value
  | .nil => []
  | .cons v vs => v :: vs.toList

/-- `ValueList` built from a plain list. -/
def ValueList.ofList : List Value → ValueList
  | [] => .nil
  | v :: vs => .cons v (ValueList.ofList vs)

mutual
/-- The wire shape of a value. -/
def shapeOf : Value → Shape
  | .literal w _ => .literal w
  | .str _ => .str
  | .wstr _ => .wstr
  | .charArr cap _ => .charArr cap
  | .vecBool _ => .vecBool
  | .vec elt _ => .vec elt
  | .lst elt _ => .lst elt
  | .mp kelt velt _ => .mp kelt velt
  | .st elt _ => .st elt
  | .record fs => .record (shapesOf fs)
/-- The wire shapes of a list of values. -/
def shapesOf : ValueList → ShapeList
  | .nil => .nil
  | .cons v vs => .cons (shapeOf v) (shapesOf vs)
end

mutual
/-- The default value of a shape: what a freshly constructed C++ member of
that type holds before `read()` assigns it (numeric members of the `main.cpp`
records default to zero, containers and strings to empty). -/
def defaultValue : Shape → Value
  | .literal w => .literal w 0
  | .str => .str []
  | .wstr => .wstr []
  | .charArr cap => .charArr cap []
  | .vecBool => .vecBool []
  | .vec elt => .vec elt .nil
  | .lst elt => .lst elt .nil
  | .mp kelt velt => .mp kelt velt .nil
  | .st elt => .st elt .nil
  | .record fs => .record (defaultFields fs)
/-- Default values for a list of field shapes. -/
def defaultFields : ShapeList → ValueList
  | .nil => .nil
  | .cons s ss => .cons (defaultValue s) (defaultFields ss)
end

/-- All values of a `ValueList` have the given shape (container elements share
the C++ element type). -/
def sameShape (t : Shape) : ValueList → Bool
  | .nil => true
  | .cons v vs => (shapeOf v == t) && sameShape t vs

/-- All pairs of a `PairList` have the given key and value shapes. -/
def sameShapePairs (kt vt : Shape) : PairList → Bool
  | .nil => true
  | .cons k v ps => (shapeOf k == kt) && (shapeOf v == vt) && sameShapePairs kt vt ps

mutual
/-- Well-formedness of a value as a C++ datum: numeric bit patterns fit their
width, narrow characters are octets, wide code units fit the fixed 16-bit wire
width, a `char[cap]` buffer holds a terminated string (no interior `NUL`,
`strlen + 1 ≤ cap`), and container elements are homogeneous in shape. -/
def wf : Value → Bool
  | .literal w bits => decide (bits < 256 ^ w)
  | .str cs => cs.all (fun c => decide (c < 256))
  | .wstr cs => cs.all (fun c => decide (c < 65536))
  | .charArr cap cs =>
      decide (cs.length + 1 ≤ cap) && cs.all (fun c => decide (c < 256) && decide (c ≠ 0))
  | .vecBool _ => true
  | .vec elt es => wfList es && sameShape elt es
  | .lst elt es => wfList es && sameShape elt es
  | .mp kelt velt ps => wfPairs ps && sameShapePairs kelt velt ps
  | .st elt es => wfList es && sameShape elt es
  | .record fs => wfList fs
/-- Well-formedness of every value of a list. -/
def wfList : ValueList → Bool
  | .nil => true
  | .cons v vs => wf v && wfList vs
/-- Well-formedness of every pair of a list. -/
def wfPairs : PairList → Bool
  | .nil => true
  | .cons k v ps => wf k && wf v && wfPairs ps
end

/-- The octet emitted for one element of an ordered-bool sequence. -/
def boolOctet (b : Bool) : Nat :=
  if b then 1 else 0

/-- The boolean recovered from one octet of an ordered-bool sequence (any
non-zero octet reads back as `true`, as a C++ `bool` does). -/
def octetBool (x : Nat) : Bool :=
  x != 0

/-- Wire octets of a wide string body: each 16-bit code unit as exactly two
octets in stream order (spec section 4.4, wide string). -/
def wideBytes (o : Endianness) : List Nat → List Nat
  | [] => []
  | c :: cs => ordBytes o 2 c ++ wideBytes o cs

/-- Code units recovered from a wide string body, two octets per unit. -/
def wideUnits (o : Endianness) : List Nat → List Nat
  | a :: b :: rest => ordNat o [a, b] :: wideUnits o rest
  | _ => []

mutual
/-- Encoder. Modelled from the spec: the `serialize::write` overloads of the
missing `serialize.h` (spec sections 3, 4.4, 4.5; README memory-layout
structs).  Every value is emitted as one wire tag, then, for variable-length
shapes, a 16-bit size in stream order, then the body; a size beyond the 16-bit
field raises `SizeOverflow`; a user-defined record is a `USER_DEFINED` tag
followed by the 16-bit payload octet count and the concatenated field
encodings (the sequential writer emits a placeholder and back-patches it; the
result is the final payload length emitted here). -/
def write (o : Endianness) : Value → Except ParsingError (List Nat)
  | .literal w bits => .ok (LITERAL :: ordBytes o w bits)
  | .str cs =>
      if cs.length ≤ 65535 then .ok (STRING :: (ordBytes o 2 cs.length ++ cs))
      else .error .sizeOverflow
  | .wstr cs =>
      if cs.length ≤ 65535 then .ok (WSTRING :: (ordBytes o 2 cs.length ++ wideBytes o cs))
      else .error .sizeOverflow
  | .charArr _ cs =>
      if cs.length + 1 ≤ 65535 then
        .ok (STRING :: (ordBytes o 2 (cs.length + 1) ++ (cs ++ [0])))
      else .error .sizeOverflow
  | .vecBool bs =>
      if bs.length ≤ 65535 then .ok (VECTOR :: (ordBytes o 2 bs.length ++ bs.map boolOctet))
      else .error .sizeOverflow
  | .vec _ es =>
      if lengthVL es ≤ 65535 then
        match writeList o es with
        | .error e => .error e
        | .ok body => .ok (VECTOR :: (ordBytes o 2 (lengthVL es) ++ body))
      else .error .sizeOverflow
  | .lst _ es =>
      if lengthVL es ≤ 65535 then
        match writeList o es with
        | .error e => .error e
        | .ok body => .ok (LIST :: (ordBytes o 2 (lengthVL es) ++ body))
      else .error .sizeOverflow
  | .mp _ _ ps =>
      if lengthPL ps ≤ 65535 then
        match writePairs o ps with
        | .error e => .error e
        | .ok body => .ok (MAP :: (ordBytes o 2 (lengthPL ps) ++ body))
      else .error .sizeOverflow
  | .st _ es =>
      if lengthVL es ≤ 65535 then
        match writeList o es with
        | .error e => .error e
        | .ok body => .ok (SET :: (ordBytes o 2 (lengthVL es) ++ body))
      else .error .sizeOverflow
  | .record fs =>
      match writeList o fs with
      | .error e => .error e
      | .ok payload =>
          if payload.length ≤ 65535 then
            .ok (USER_DEFINED :: (ordBytes o 2 payload.length ++ payload))
          else .error .sizeOverflow
/-- Concatenated encodings of a list of values (container elements in
iteration order, or the field sequence of a record). -/
def writeList (o : Endianness) : ValueList → Except ParsingError (List Nat)
  | .nil => .ok []
  | .cons v vs =>
      match write o v with
      | .error e => .error e
      | .ok b =>
          match writeList o vs with
          | .error e => .error e
          | .ok rest => .ok (b ++ rest)
/-- Concatenated encodings of the pairs of a keyed mapping: key value then
mapped value, each tagged independently (spec section 3). -/
def writePairs (o : Endianness) : PairList → Except ParsingError (List Nat)
  | .nil => .ok []
  | .cons k v ps =>
      match write o k with
      | .error e => .error e
      | .ok bk =>
          match write o v with
          | .error e => .error e
          | .ok bv =>
              match writePairs o ps with
              | .error e => .error e
              | .ok rest => .ok (bk ++ (bv ++ rest))
end

/-- Consume one expected tag octet; a differing octet is a hard
`TypeMismatch`, an exhausted source is `EndOfStream` (spec section 4.3). -/
def readTag (t : Nat) (bs : List Nat) : Except ParsingError (List Nat) :=
  match bs with
  | [] => .error .endOfStream
  | b :: rest => if b = t then .ok rest else .error .typeMismatch

/-- Consume exactly `w` octets; a short source is `EndOfStream`. -/
def readBytes (w : Nat) (bs : List Nat) : Except ParsingError (List Nat × List Nat) :=
  if w ≤ bs.length then .ok (bs.take w, bs.drop w) else .error .endOfStream

/-- Consume a 16-bit size prefix in stream order. -/
def readSize (o : Endianness) (bs : List Nat) : Except ParsingError (Nat × List Nat) :=
  match readBytes 2 bs with
  | .error e => .error e
  | .ok (xs, rest) => .ok (ordNat o xs, rest)

/-- Decode `n` consecutive elements with the element decoder `f`. -/
def readMany (f : List Nat → Except ParsingError (Value × List Nat)) :
    Nat → List Nat → Except ParsingError (ValueList × List Nat)
  | 0, bs => .ok (.nil, bs)
  | n + 1, bs =>
      match f bs with
      | .error e => .error e
      | .ok (v, bs1) =>
          match readMany f n bs1 with
          | .error e => .error e
          | .ok (vs, bs2) => .ok (.cons v vs, bs2)

/-- Decode `n` consecutive key/value pairs with the key decoder `fk` and the
mapped-value decoder `fv`. -/
def readPairs (fk fv : List Nat → Except ParsingError (Value × List Nat)) :
    Nat → List Nat → Except ParsingError (PairList × List Nat)
  | 0, bs => .ok (.nil, bs)
  | n + 1, bs =>
      match fk bs with
      | .error e => .error e
      | .ok (k, bs1) =>
          match fv bs1 with
          | .error e => .error e
          | .ok (v, bs2) =>
              match readPairs fk fv n bs2 with
              | .error e => .error e
              | .ok (ps, bs3) => .ok (.cons k v ps, bs3)

mutual
/-- Decoder. Modelled from the spec: the `serialize::read` overloads of the
missing `serialize.h` (spec sections 4.3, 4.4, 4.5).  Each routine expects its
own wire tag (a mismatch is the hard `TypeMismatch`), reads the 16-bit size
for variable-length shapes and then exactly the announced content.  A
user-defined record reads its 16-bit payload length `L`, hands the next `L`
octets to the field sequence, and resumes immediately after them whatever the
fields consumed: octets of unknown trailing fields are thereby skipped
(forward compatibility, spec section 4.5 step 4). -/
def read (o : Endianness) : Shape → List Nat → Except ParsingError (Value × List Nat)
  | .literal w => fun bs =>
      match readTag LITERAL bs with
      | .error e => .error e
      | .ok bs1 =>
          match readBytes w bs1 with
          | .error e => .error e
          | .ok (xs, bs2) => .ok (.literal w (ordNat o xs), bs2)
  | .str => fun bs =>
      match readTag STRING bs with
      | .error e => .error e
      | .ok bs1 =>
          match readSize o bs1 with
          | .error e => .error e
          | .ok (n, bs2) =>
              match readBytes n bs2 with
              | .error e => .error e
              | .ok (xs, bs3) => .ok (.str xs, bs3)
  | .wstr => fun bs =>
      match readTag WSTRING bs with
      | .error e => .error e
      | .ok bs1 =>
          match readSize o bs1 with
          | .error e => .error e
          | .ok (n, bs2) =>
              match readBytes (2 * n) bs2 with
              | .error e => .error e
              | .ok (xs, bs3) => .ok (.wstr (wideUnits o xs), bs3)
  | .charArr cap => fun bs =>
      match readTag STRING bs with
      | .error e => .error e
      | .ok bs1 =>
          match readSize o bs1 with
          | .error e => .error e
          | .ok (n, bs2) =>
              if cap < n then .error .stringTooLong
              else
                match readBytes n bs2 with
                | .error e => .error e
                | .ok (xs, bs3) => .ok (.charArr cap (xs.take (n - 1)), bs3)
  | .vecBool => fun bs =>
      match readTag VECTOR bs with
      | .error e => .error e
      | .ok bs1 =>
          match readSize o bs1 with
          | .error e => .error e
          | .ok (n, bs2) =>
              match readBytes n bs2 with
              | .error e => .error e
              | .ok (xs, bs3) => .ok (.vecBool (xs.map octetBool), bs3)
  | .vec elt => fun bs =>
      match readTag VECTOR bs with
      | .error e => .error e
      | .ok bs1 =>
          match readSize o bs1 with
          | .error e => .error e
          | .ok (n, bs2) =>
              match readMany (read o elt) n bs2 with
              | .error e => .error e
              | .ok (es, bs3) => .ok (.vec elt es, bs3)
  | .lst elt => fun bs =>
      match readTag LIST bs with
      | .error e => .error e
      | .ok bs1 =>
          match readSize o bs1 with
          | .error e => .error e
          | .ok (n, bs2) =>
              match readMany (read o elt) n bs2 with
              | .error e => .error e
              | .ok (es, bs3) => .ok (.lst elt es, bs3)
  | .mp kelt velt => fun bs =>
      match readTag MAP bs with
      | .error e => .error e
      | .ok bs1 =>
          match readSize o bs1 with
          | .error e => .error e
          | .ok (n, bs2) =>
              match readPairs (read o kelt) (read o velt) n bs2 with
              | .error e => .error e
              | .ok (ps, bs3) => .ok (.mp kelt velt ps, bs3)
  | .st elt => fun bs =>
      match readTag SET bs with
      | .error e => .error e
      | .ok bs1 =>
          match readSize o bs1 with
          | .error e => .error e
          | .ok (n, bs2) =>
              match readMany (read o elt) n bs2 with
              | .error e => .error e
              | .ok (es, bs3) => .ok (.st elt es, bs3)
  | .record fs => fun bs =>
      match readTag USER_DEFINED bs with
      | .error e => .error e
      | .ok bs1 =>
          match readSize o bs1 with
          | .error e => .error e
          | .ok (len, bs2) =>
              match readBytes len bs2 with
              | .error e => .error e
              | .ok (payload, rest) =>
                  match readFields o fs payload with
                  | .error e => .error e
                  | .ok (vals, _) => .ok (.record vals, rest)
/-- Decode a record's expected field sequence from its payload octets.  When
the payload is already exhausted, the remaining field reads return their
defaults without consuming input and without raising an error (backward
compatibility, spec section 4.5 step 5). -/
def readFields (o : Endianness) : ShapeList → List Nat → Except ParsingError (ValueList × List Nat)
  | .nil => fun bs => .ok (.nil, bs)
  | .cons s ss => fun bs =>
      match bs with
      | [] => .ok (.cons (defaultValue s) (defaultFields ss), [])
      | b :: rest =>
          match read o s (b :: rest) with
          | .error e => .error e
          | .ok (v, bs1) =>
              match readFields o ss bs1 with
              | .error e => .error e
              | .ok (vs, bs2) => .ok (.cons v vs, bs2)
end

/-- The transport's healthy flag after an operation: set exactly when no error
was raised (spec sections 4.1 and 7 propagation policy). -/
def isHealthy {α : Type} : Except ParsingError α → Bool
  | .ok _ => true
  | .error _ => false

/-- Host-order octet image of a `w`-octet integer in memory: most significant
octet first on a big-endian host, least significant first on a little-endian
host.  Modelled from the spec: host byte-order detection (spec 4.2). -/
def hostBytes (h : Endianness) (w n : Nat) : List Nat :=
  match h with
  | .big => beBytes w n
  | .little => (beBytes w n).reverse

/-- In-place byte swap of a primitive's octets (spec 4.2 swap policy). -/
def byteSwap (xs : List Nat) : List Nat :=
  xs.reverse

/-- Octets a host of order `host` emits for a `w`-octet primitive under stream
order `stream`: the memory image, byte-swapped when host and stream order
differ (spec 4.2 swap policy). -/
def writePrim (host stream : Endianness) (w n : Nat) : List Nat :=
  if host = stream then hostBytes host w n else byteSwap (hostBytes host w n)

/-- Value a host of order `h` reads from a primitive's octet image in its own
memory order. -/
def hostValue (h : Endianness) (xs : List Nat) : Nat :=
  match h with
  | .big => beNat xs
  | .little => beNat xs.reverse

/-- Value a host of order `host` recovers from a primitive's wire octets under
stream order `stream`: byte-swap when the orders differ, then read the memory
image (spec 4.2 swap policy, consuming side). -/
def readPrim (host stream : Endianness) (xs : List Nat) : Nat :=
  hostValue host (if host = stream then xs else byteSwap xs)

/-- Body encoding of a container of owned pointers: each element is an
(address, pointee) pair and the writer dereferences the pointer and encodes
the pointee, never the pointer representation (spec section 3). -/
def writePtrElems (o : Endianness) : List (Nat × Value) → Except ParsingError (List Nat)
  | [] => .ok []
  | (_, v) :: ps =>
      match write o v with
      | .error e => .error e
      | .ok b =>
          match writePtrElems o ps with
          | .error e => .error e
          | .ok r => .ok (b ++ r)

/-- `std::list` of owned pointers, writer side: `LIST` tag, 16-bit element
count, then the pointee encodings. -/
def writeListPtr (o : Endianness) (ps : List (Nat × Value)) : Except ParsingError (List Nat) :=
  if ps.length ≤ 65535 then
    match writePtrElems o ps with
    | .error e => .error e
    | .ok body => .ok (LIST :: (ordBytes o 2 ps.length ++ body))
  else .error .sizeOverflow

/-- One freshly allocated owned instance per decoded element: the addresses
are successive allocation identities starting at `base`, so they are pairwise
distinct and each holds its decoded pointee. -/
def freshPtrs (base : Nat) : ValueList → List (Nat × Value)
  | .nil => []
  | .cons v vs => (base, v) :: freshPtrs (base + 1) vs

/-- `std::list` of owned pointers, reader side: decode the element sequence,
then allocate a fresh owned instance per element and insert the new pointers
into the container (spec sections 3 and 4.4). -/
def readListPtr (o : Endianness) (elt : Shape) (bs : List Nat) :
    Except ParsingError (List (Nat × Value) × List Nat) :=
  match read o (.lst elt) bs with
  | .error e => .error e
  | .ok (.lst _ es, rest) => .ok (freshPtrs 0 es, rest)
  | .ok _ => .error .invalid

/-- `std::vector` of owned pointers, writer side: `VECTOR` tag, 16-bit element
count, then the pointee encodings. -/
def writeVectorPtr (o : Endianness) (ps : List (Nat × Value)) : Except ParsingError (List Nat) :=
  if ps.length ≤ 65535 then
    match writePtrElems o ps with
    | .error e => .error e
    | .ok body => .ok (VECTOR :: (ordBytes o 2 ps.length ++ body))
  else .error .sizeOverflow

/-- `std::vector` of owned pointers, reader side: decode the element sequence,
then allocate one fresh owned instance per element. -/
def readVectorPtr (o : Endianness) (elt : Shape) (bs : List Nat) :
    Except ParsingError (List (Nat × Value) × List Nat) :=
  match read o (.vec elt) bs with
  | .error e => .error e
  | .ok (.vec _ es, rest) => .ok (freshPtrs 0 es, rest)
  | .ok _ => .error .invalid

/-- `std::set` of owned pointers, writer side: `SET` tag, 16-bit element
count, then the pointee encodings. -/
def writeSetPtr (o : Endianness) (ps : List (Nat × Value)) : Except ParsingError (List Nat) :=
  if ps.length ≤ 65535 then
    match writePtrElems o ps with
    | .error e => .error e
    | .ok body => .ok (SET :: (ordBytes o 2 ps.length ++ body))
  else .error .sizeOverflow

/-- `std::set` of owned pointers, reader side: decode the element sequence,
then allocate one fresh owned instance per element and insert it. -/
def readSetPtr (o : Endianness) (elt : Shape) (bs : List Nat) :
    Except ParsingError (List (Nat × Value) × List Nat) :=
  match read o (.st elt) bs with
  | .error e => .error e
  | .ok (.st _ es, rest) => .ok (freshPtrs 0 es, rest)
  | .ok _ => .error .invalid

/-- Plain list of the key/value pairs of a `PairList`. -/
def PairList.toList : PairList → List (Value × Value)
  | .nil => []
  | .cons k v ps => (k, v) :: ps.toList

/-- `PairList` built from a plain list of key/value pairs. -/
def PairList.ofList : List (Value × Value) → PairList
  | [] => .nil
  | (k, v) :: ps => .cons k v (PairList.ofList ps)

/-- Body encoding of a keyed mapping whose mapped values are owned pointers:
for each pair the key value is encoded, then the pointer is dereferenced and
the pointee encoded — the pointer representation is never written (spec
section 3). -/
def writeMapPtrElems (o : Endianness) :
    List (Value × (Nat × Value)) → Except ParsingError (List Nat)
  | [] => .ok []
  | (k, (_, v)) :: ps =>
      match write o k with
      | .error e => .error e
      | .ok bk =>
          match write o v with
          | .error e => .error e
          | .ok bv =>
              match writeMapPtrElems o ps with
              | .error e => .error e
              | .ok r => .ok (bk ++ (bv ++ r))

/-- `std::map` with owned-pointer mapped values, writer side: `MAP` tag,
16-bit pair count, then key/pointee encodings. -/
def writeMapPtr (o : Endianness) (ps : List (Value × (Nat × Value))) :
    Except ParsingError (List Nat) :=
  if ps.length ≤ 65535 then
    match writeMapPtrElems o ps with
    | .error e => .error e
    | .ok body => .ok (MAP :: (ordBytes o 2 ps.length ++ body))
  else .error .sizeOverflow

/-- One freshly allocated owned instance per decoded mapped value: keys are
kept, the mapped pointers receive successive allocation identities starting at
`base`, each holding its decoded pointee. -/
def freshPtrPairs (base : Nat) : PairList → List (Value × (Nat × Value))
  | .nil => []
  | .cons k v ps => (k, (base, v)) :: freshPtrPairs (base + 1) ps

/-- `std::map` with owned-pointer mapped values, reader side: decode the pair
sequence, then allocate a fresh owned instance per mapped value and insert the
new pointers. -/
def readMapPtr (o : Endianness) (kelt velt : Shape) (bs : List Nat) :
    Except ParsingError (List (Value × (Nat × Value)) × List Nat) :=
  match read o (.mp kelt velt) bs with
  | .error e => .error e
  | .ok (.mp _ _ ps, rest) => .ok (freshPtrPairs 0 ps, rest)
  | .ok _ => .error .invalid

/-- `n` copies of a value as a `ValueList`. -/
def replicateVL : Nat → Value → ValueList
  | 0, _ => .nil
  | n + 1, v => .cons v (replicateVL n v)

/-- The `Color` enumeration of `main.cpp`, with explicitly specified
underlying type `uint16_t`. -/
inductive Color where
  | RED
  | GREEN
  | BLUE
deriving DecidableEq, Repr

/-- Underlying `uint16_t` value of a `Color` enumerator. -/
def Color.val : Color → Nat
  | .RED => 0
  | .GREEN => 1
  | .BLUE => 2

/-- `Color` enumerator restored from its underlying value. -/
def colorOfVal (n : Nat) : Color :=
  if n = 0 then .RED else if n = 1 then .GREEN else .BLUE

/-- The `Log::LogType` enumeration of `main.cpp`, with explicitly specified
underlying type `uint16_t`. -/
inductive LogType where
  | ALARM
  | DIAGNOSTIC
deriving DecidableEq, Repr

/-- Underlying `uint16_t` value of a `Log::LogType` enumerator. -/
def LogType.val : LogType → Nat
  | .ALARM => 0
  | .DIAGNOSTIC => 1

/-- `Log::LogType` enumerator restored from its underlying value. -/
def logTypeOfVal (n : Nat) : LogType :=
  if n = 0 then .ALARM else .DIAGNOSTIC

/-- Writer for a `Color` member: the template write for built-in types
serialises the enum as a numeric primitive of its underlying type's width
(two octets for `uint16_t`). -/
def writeColor (o : Endianness) (c : Color) : Except ParsingError (List Nat) :=
  write o (.literal 2 c.val)

/-- Reader for a `Color` member: decode the two-octet literal and restore the
enumerator from the underlying value. -/
def readColor (o : Endianness) (bs : List Nat) : Except ParsingError (Color × List Nat) :=
  match read o (.literal 2) bs with
  | .error e => .error e
  | .ok (.literal _ bits, rest) => .ok (colorOfVal bits, rest)
  | .ok _ => .error .invalid

/-- Writer for a `Log::LogType` member, two octets for `uint16_t`. -/
def writeLogType (o : Endianness) (t : LogType) : Except ParsingError (List Nat) :=
  write o (.literal 2 t.val)

/-- Reader for a `Log::LogType` member. -/
def readLogType (o : Endianness) (bs : List Nat) : Except ParsingError (LogType × List Nat) :=
  match read o (.literal 2) bs with
  | .error e => .error e
  | .ok (.literal _ bits, rest) => .ok (logTypeOfVal bits, rest)
  | .ok _ => .error .invalid

/-- The `DataV1` record of `main.cpp`: one `int` field `data` (`int` is
32-bit, four octets, on the targeted platforms). -/
def dataV1 (data : Nat) : Value :=
  .record (.cons (.literal 4 data) .nil)

/-- Wire shape of `DataV1`: what its `read()` expects. -/
def shapeV1 : Shape :=
  .record (.cons (.literal 4) .nil)

/-- The `DataV2` record of `main.cpp`: `int data` plus the appended
`int dataNew`. -/
def dataV2 (data dataNew : Nat) : Value :=
  .record (.cons (.literal 4 data) (.cons (.literal 4 dataNew) .nil))

/-- Wire shape of `DataV2`. -/
def shapeV2 : Shape :=
  .record (.cons (.literal 4) (.cons (.literal 4) .nil))

/-- The `Date` record of `main.cpp`: `int16_t` fields day, month, year. -/
def date (day month year : Nat) : Value :=
  .record (.cons (.literal 2 day) (.cons (.literal 2 month) (.cons (.literal 2 year) .nil)))

/-- Wire shape of `Date`. -/
def dateShape : Shape :=
  .record (.cons (.literal 2) (.cons (.literal 2) (.cons (.literal 2) .nil)))

/-- A composite demonstration value touching a numeric primitive, a narrow
string, an ordered-bool sequence, a wide string, a fixed char array, a linked
sequence of records, a keyed mapping, a unique set and an ordered sequence. -/
def demoValue : Value :=
  .record (.cons (.literal 4 7)
    (.cons (.str [72, 105])
      (.cons (.vecBool [true, false])
        (.cons (.wstr [72, 9731])
          (.cons (.charArr 32 [72, 101, 121])
            (.cons (.lst dateShape (.cons (date 1 1 2001) (.cons (date 2 2 2002) .nil)))
              (.cons (.mp (.literal 4) dateShape
                  (.cons (.literal 4 0) (date 1 1 2001)
                    (.cons (.literal 4 1) (date 2 2 2002) .nil)))
                (.cons (.st (.literal 4) (.cons (.literal 4 1) (.cons (.literal 4 2) .nil)))
                  (.cons (.vec (.literal 4) (.cons (.literal 4 3) .nil)) .nil)))))))))

/-- Two owned `Date` pointers, deliberately sharing the address 5: only the
pointees matter to the writer. -/
def demoPtrs : List (Nat × Value) :=
  [(5, date 1 1 2001), (5, date 2 2 2002)]

/-- The same pointees as `demoPtrs` behind different addresses. -/
def demoPtrsB : List (Nat × Value) :=
  [(9, date 1 1 2001), (123, date 2 2 2002)]

/-- Pointee encodings of `demoPtrs`: two `Date` records. -/
def demoPtrBody : List Nat :=
  [31, 0, 9, 1, 0, 1, 1, 0, 1, 1, 7, 209, 31, 0, 9, 1, 0, 2, 1, 0, 2, 1, 7, 210]

/-- An `int`-keyed mapping to owned `Date` pointers, the two mapped pointers
deliberately sharing the address 7. -/
def demoMapPtrs : List (Value × (Nat × Value)) :=
  [(.literal 4 0, (7, date 1 1 2001)), (.literal 4 1, (7, date 2 2 2002))]

/-- The same keys and pointees as `demoMapPtrs` behind different addresses. -/
def demoMapPtrsB : List (Value × (Nat × Value)) :=
  [(.literal 4 0, (21, date 1 1 2001)), (.literal 4 1, (4, date 2 2 2002))]

/-- Key/pointee encodings of `demoMapPtrs`. -/
def demoMapPtrBody : List Nat :=
  [1, 0, 0, 0, 0, 31, 0, 9, 1, 0, 1, 1, 0, 1, 1, 7, 209,
   1, 0, 0, 0, 1, 31, 0, 9, 1, 0, 2, 1, 0, 2, 1, 7, 210]

theorem beBytes_length (w n : Nat) : (beBytes w n).length = w := by
  induction w generalizing n with
  | zero => rfl
  | succ w ih => simp [beBytes, ih]

theorem beNat_beBytes (w n : Nat) (h : n < 256 ^ w) : beNat (beBytes w n) = n := by
  induction w generalizing n with
  | zero =>
      interval_cases n
      rfl
  | succ w ih =>
      have hm : n % 256 ^ w < 256 ^ w := Nat.mod_lt _ (Nat.pos_pow_of_pos w (by norm_num))
      simp only [beBytes, beNat, beBytes_length, ih (n % 256 ^ w) hm]
      calc n / 256 ^ w * 256 ^ w + n % 256 ^ w
          = 256 ^ w * (n / 256 ^ w) + n % 256 ^ w := by ring
        _ = n := Nat.div_add_mod n (256 ^ w)

theorem ordBytes_length (o : Endianness) (w n : Nat) : (ordBytes o w n).length = w := by
  cases o <;> simp [ordBytes, beBytes_length]

theorem ordNat_ordBytes (o : Endianness) (w n : Nat) (h : n < 256 ^ w) :
    ordNat o (ordBytes o w n) = n := by
  cases o <;> simp [ordBytes, ordNat, beNat_beBytes w n h]

theorem readTag_cons (t : Nat) (bs : List Nat) : readTag t (t :: bs) = .ok bs := by
  simp [readTag]

theorem readBytes_append (w : Nat) (xs rest : List Nat) (h : xs.length = w) :
    readBytes w (xs ++ rest) = .ok (xs, rest) := by
  subst h
  simp [readBytes, List.take_left, List.drop_left]

theorem readSize_ordBytes (o : Endianness) (n : Nat) (rest : List Nat) (h : n < 65536) :
    readSize o (ordBytes o 2 n ++ rest) = .ok (n, rest) := by
  have h2 : n < 256 ^ 2 := by norm_num [h]
  simp [readSize, readBytes_append 2 _ rest (ordBytes_length o 2 n), ordNat_ordBytes o 2 n h2]

theorem wideBytes_length (o : Endianness) (cs : List Nat) :
    (wideBytes o cs).length = 2 * cs.length := by
  induction cs with
  | nil => rfl
  | cons c cs ih => simp [wideBytes, ordBytes_length, ih]; omega

theorem wideUnits_wideBytes (o : Endianness) (cs : List Nat)
    (h : ∀ c ∈ cs, c < 65536) : wideUnits o (wideBytes o cs) = cs := by
  induction cs with
  | nil => rfl
  | cons c cs ih =>
      have hc : c < 256 ^ 2 := by have := h c (by simp); norm_num [this]
      have hlen : (ordBytes o 2 c).length = 2 := ordBytes_length o 2 c
      obtain ⟨a, b, hab⟩ : ∃ a b, ordBytes o 2 c = [a, b] := by
        match hx : ordBytes o 2 c with
        | [] => rw [hx] at hlen; simp at hlen
        | [a] => rw [hx] at hlen; simp at hlen
        | a :: b :: c :: l => rw [hx] at hlen; simp at hlen
        | [a, b] => exact ⟨a, b, rfl⟩
      have hval : ordNat o [a, b] = c := by
        rw [← hab]
        exact ordNat_ordBytes o 2 c hc
      simp only [wideBytes, hab, List.cons_append, List.nil_append, wideUnits, hval]
      rw [ih (fun x hx => h x (by simp [hx]))]

theorem octetBool_boolOctet (b : Bool) : octetBool (boolOctet b) = b := by
  cases b <;> rfl

theorem map_octetBool_boolOctet (bs : List Bool) :
    (bs.map boolOctet).map octetBool = bs := by
  induction bs with
  | nil => rfl
  | cons b bs ih => simp [octetBool_boolOctet, ih]

theorem map_octetBool_comp (bs : List Bool) :
    List.map (octetBool ∘ boolOctet) bs = bs := by
  induction bs with
  | nil => rfl
  | cons b bs ih => simp [Function.comp, octetBool_boolOctet, ih]

theorem write_ne_nil (o : Endianness) (v : Value) (enc : List Nat)
    (he : write o v = .ok enc) : enc ≠ [] := by
  cases v <;> simp only [write] at he <;>
    (try split at he) <;> (try split at he) <;> cases he <;> simp

mutual
/-- Round trip: a well-formed value written under stream order `o` is read
back unchanged by the decoder for its shape, leaving the trailing stream
intact. -/
theorem read_write_aux (o : Endianness) : ∀ (v : Value), wf v = true →
    ∀ (enc : List Nat), write o v = .ok enc →
    ∀ (rest : List Nat), read o (shapeOf v) (enc ++ rest) = .ok (v, rest)
  | .literal w bits, hwf, enc, he, rest => by
      simp only [wf, decide_eq_true_eq] at hwf
      simp only [write] at he
      cases he
      simp [shapeOf, read, readTag_cons,
            readBytes_append w (ordBytes o w bits) rest (ordBytes_length o w bits),
            ordNat_ordBytes o w bits hwf]
  | .str cs, _, enc, he, rest => by
      simp only [write] at he
      split at he
      · rename_i hlen
        cases he
        have hlen2 : cs.length < 65536 := by omega
        simp [shapeOf, read, readTag_cons, List.append_assoc,
              readSize_ordBytes o cs.length _ hlen2,
              readBytes_append cs.length cs rest rfl]
      · cases he
  | .wstr cs, hwf, enc, he, rest => by
      simp only [wf, List.all_eq_true, decide_eq_true_eq] at hwf
      simp only [write] at he
      split at he
      · rename_i hlen
        cases he
        have hlen2 : cs.length < 65536 := by omega
        simp [shapeOf, read, readTag_cons, List.append_assoc,
              readSize_ordBytes o cs.length _ hlen2,
              readBytes_append (2 * cs.length) (wideBytes o cs) rest (wideBytes_length o cs),
              wideUnits_wideBytes o cs hwf]
      · cases he
  | .charArr cap cs, hwf, enc, he, rest => by
      simp only [wf, Bool.and_eq_true, decide_eq_true_eq] at hwf
      simp only [write] at he
      split at he
      · rename_i hlen
        cases he
        have hlen2 : cs.length + 1 < 65536 := by omega
        have hcap : ¬ cap < cs.length + 1 := by omega
        have hrb : readBytes (cs.length + 1) ((cs ++ [0]) ++ rest) = .ok (cs ++ [0], rest) :=
          readBytes_append (cs.length + 1) (cs ++ [0]) rest (by simp)
        simp only [List.append_assoc, List.cons_append, List.nil_append] at hrb
        simp [shapeOf, read, readTag_cons, List.append_assoc,
              readSize_ordBytes o (cs.length + 1) _ hlen2, hcap, hrb, List.take_left]
      · cases he
  | .vecBool bs, _, enc, he, rest => by
      simp only [write] at he
      split at he
      · rename_i hlen
        cases he
        have hlen2 : bs.length < 65536 := by omega
        simp [shapeOf, read, readTag_cons, List.append_assoc,
              readSize_ordBytes o bs.length _ hlen2,
              readBytes_append bs.length (bs.map boolOctet) rest (by simp),
              map_octetBool_boolOctet, map_octetBool_comp]
      · cases he
  | .vec elt es, hwf, enc, he, rest => by
      simp only [wf, Bool.and_eq_true] at hwf
      obtain ⟨hwfl, hsh⟩ := hwf
      simp only [write] at he
      split at he
      · rename_i hlen
        split at he
        · cases he
        · rename_i body hbody
          cases he
          have hlen2 : lengthVL es < 65536 := by omega
          have hmany := readMany_writeList_aux o elt es hwfl hsh body hbody rest
          simp [shapeOf, read, readTag_cons, List.append_assoc,
                readSize_ordBytes o (lengthVL es) _ hlen2, hmany]
      · cases he
  | .lst elt es, hwf, enc, he, rest => by
      simp only [wf, Bool.and_eq_true] at hwf
      obtain ⟨hwfl, hsh⟩ := hwf
      simp only [write] at he
      split at he
      · rename_i hlen
        split at he
        · cases he
        · rename_i body hbody
          cases he
          have hlen2 : lengthVL es < 65536 := by omega
          have hmany := readMany_writeList_aux o elt es hwfl hsh body hbody rest
          simp [shapeOf, read, readTag_cons, List.append_assoc,
                readSize_ordBytes o (lengthVL es) _ hlen2, hmany]
      · cases he
  | .mp kelt velt ps, hwf, enc, he, rest => by
      simp only [wf, Bool.and_eq_true] at hwf
      obtain ⟨hwfl, hsh⟩ := hwf
      simp only [write] at he
      split at he
      · rename_i hlen
        split at he
        · cases he
        · rename_i body hbody
          cases he
          have hlen2 : lengthPL ps < 65536 := by omega
          have hmany := readPairs_writePairs_aux o kelt velt ps hwfl hsh body hbody rest
          simp [shapeOf, read, readTag_cons, List.append_assoc,
                readSize_ordBytes o (lengthPL ps) _ hlen2, hmany]
      · cases he
  | .st elt es, hwf, enc, he, rest => by
      simp only [wf, Bool.and_eq_true] at hwf
      obtain ⟨hwfl, hsh⟩ := hwf
      simp only [write] at he
      split at he
      · rename_i hlen
        split at he
        · cases he
        · rename_i body hbody
          cases he
          have hlen2 : lengthVL es < 65536 := by omega
          have hmany := readMany_writeList_aux o elt es hwfl hsh body hbody rest
          simp [shapeOf, read, readTag_cons, List.append_assoc,
                readSize_ordBytes o (lengthVL es) _ hlen2, hmany]
      · cases he
  | .record fs, hwf, enc, he, rest => by
      simp only [wf] at hwf
      simp only [write] at he
      split at he
      · cases he
      · rename_i payload hpayload
        split at he
        · rename_i hlen
          cases he
          have hlen2 : payload.length < 65536 := by omega
          have hfields := readFields_writeList_aux o fs hwf payload hpayload
          simp [shapeOf, read, readTag_cons, List.append_assoc,
                readSize_ordBytes o payload.length _ hlen2,
                readBytes_append payload.length payload rest rfl, hfields]
        · cases he
/-- Round trip for a homogeneous element list: the concatenated element
encodings read back element by element. -/
theorem readMany_writeList_aux (o : Endianness) :
    ∀ (elt : Shape) (es : ValueList), wfList es = true → sameShape elt es = true →
    ∀ (body : List Nat), writeList o es = .ok body →
    ∀ (rest : List Nat), readMany (read o elt) (lengthVL es) (body ++ rest) = .ok (es, rest)
  | _, .nil, _, _, body, he, rest => by
      simp only [writeList] at he
      cases he
      simp [lengthVL, readMany]
  | elt, .cons v vs, hwf, hsh, body, he, rest => by
      simp only [wfList, Bool.and_eq_true] at hwf
      obtain ⟨hwfv, hwfvs⟩ := hwf
      simp only [sameShape, Bool.and_eq_true, beq_iff_eq] at hsh
      obtain ⟨hshv, hshvs⟩ := hsh
      simp only [writeList] at he
      split at he
      · cases he
      · rename_i b hb
        split at he
        · cases he
        · rename_i brest hbrest
          cases he
          have h1 := read_write_aux o v hwfv b hb (brest ++ rest)
          rw [hshv] at h1
          have h2 := readMany_writeList_aux o elt vs hwfvs hshvs brest hbrest rest
          simp [lengthVL, readMany, List.append_assoc, h1, h2]
/-- Round trip for a key/value pair list: the concatenated pair encodings
read back pair by pair. -/
theorem readPairs_writePairs_aux (o : Endianness) :
    ∀ (kelt velt : Shape) (ps : PairList), wfPairs ps = true →
    sameShapePairs kelt velt ps = true →
    ∀ (body : List Nat), writePairs o ps = .ok body →
    ∀ (rest : List Nat),
      readPairs (read o kelt) (read o velt) (lengthPL ps) (body ++ rest) = .ok (ps, rest)
  | _, _, .nil, _, _, body, he, rest => by
      simp only [writePairs] at he
      cases he
      simp [lengthPL, readPairs]
  | kelt, velt, .cons k v ps, hwf, hsh, body, he, rest => by
      simp only [wfPairs, Bool.and_eq_true] at hwf
      obtain ⟨⟨hwfk, hwfv⟩, hwfps⟩ := hwf
      simp only [sameShapePairs, Bool.and_eq_true, beq_iff_eq] at hsh
      obtain ⟨⟨hshk, hshv⟩, hshps⟩ := hsh
      simp only [writePairs] at he
      split at he
      · cases he
      · rename_i bk hbk
        split at he
        · cases he
        · rename_i bv hbv
          split at he
          · cases he
          · rename_i brest hbrest
            cases he
            have h1 := read_write_aux o k hwfk bk hbk (bv ++ (brest ++ rest))
            rw [hshk] at h1
            have h2 := read_write_aux o v hwfv bv hbv (brest ++ rest)
            rw [hshv] at h2
            have h3 := readPairs_writePairs_aux o kelt velt ps hwfps hshps brest hbrest rest
            simp [lengthPL, readPairs, List.append_assoc, h1, h2, h3]
/-- Round trip for a record's field sequence: the concatenated field
encodings read back in order and consume the whole payload. -/
theorem readFields_writeList_aux (o : Endianness) :
    ∀ (fs : ValueList), wfList fs = true →
    ∀ (payload : List Nat), writeList o fs = .ok payload →
    readFields o (shapesOf fs) payload = .ok (fs, [])
  | .nil, _, payload, he => by
      simp only [writeList] at he
      cases he
      simp [shapesOf, readFields]
  | .cons v vs, hwf, payload, he => by
      simp only [wfList, Bool.and_eq_true] at hwf
      obtain ⟨hwfv, hwfvs⟩ := hwf
      simp only [writeList] at he
      split at he
      · cases he
      · rename_i b hb
        split at he
        · cases he
        · rename_i brest hbrest
          cases he
          have hbne := write_ne_nil o v b hb
          obtain ⟨c, cs, rfl⟩ := List.exists_cons_of_ne_nil hbne
          have h1 := read_write_aux o v hwfv (c :: cs) hb brest
          have h2 := readFields_writeList_aux o vs hwfvs brest hbrest
          simp only [List.cons_append] at h1
          simp [shapesOf, readFields, h1, h2]
end

theorem writePrim_eq_ordBytes (host stream : Endianness) (w n : Nat) :
    writePrim host stream w n = ordBytes stream w n := by
  cases host <;> cases stream <;>
    simp [writePrim, hostBytes, byteSwap, ordBytes, List.reverse_reverse]

theorem readPrim_writePrim (host host2 stream : Endianness) (w n : Nat) (h : n < 256 ^ w) :
    readPrim host2 stream (writePrim host stream w n) = n := by
  rw [writePrim_eq_ordBytes]
  cases host2 <;> cases stream <;>
    simp [readPrim, hostValue, byteSwap, ordBytes, List.reverse_reverse, beNat_beBytes w n h]

theorem writePtrElems_eq_writeList (o : Endianness) (ps : List (Nat × Value)) :
    writePtrElems o ps = writeList o (ValueList.ofList (ps.map Prod.snd)) := by
  induction ps with
  | nil => rfl
  | cons p ps ih =>
      obtain ⟨a, v⟩ := p
      simp [writePtrElems, writeList, ValueList.ofList, ih]

theorem lengthVL_ofList (l : List Value) : lengthVL (ValueList.ofList l) = l.length := by
  induction l with
  | nil => rfl
  | cons v l ih => simp [ValueList.ofList, lengthVL, ih]

theorem toList_ofList (l : List Value) : (ValueList.ofList l).toList = l := by
  induction l with
  | nil => rfl
  | cons v l ih => simp [ValueList.ofList, ValueList.toList, ih]

theorem freshPtrs_map_snd : ∀ (es : ValueList) (base : Nat),
    (freshPtrs base es).map Prod.snd = es.toList
  | .nil, _ => rfl
  | .cons v vs, base => by
      simp [freshPtrs, ValueList.toList, freshPtrs_map_snd vs (base + 1)]

theorem freshPtrs_map_fst : ∀ (es : ValueList) (base : Nat),
    (freshPtrs base es).map Prod.fst = List.range' base (lengthVL es)
  | .nil, _ => rfl
  | .cons v vs, base => by
      simp [freshPtrs, lengthVL, List.range', freshPtrs_map_fst vs (base + 1)]

theorem lengthVL_replicateVL (n : Nat) (v : Value) : lengthVL (replicateVL n v) = n := by
  induction n with
  | zero => rfl
  | succ n ih => simp [replicateVL, lengthVL, ih]

theorem lengthPL_ofList (l : List (Value × Value)) : lengthPL (PairList.ofList l) = l.length := by
  induction l with
  | nil => rfl
  | cons p l ih =>
      obtain ⟨k, v⟩ := p
      simp [PairList.ofList, lengthPL, ih]

theorem toListPairs_ofList (l : List (Value × Value)) : (PairList.ofList l).toList = l := by
  induction l with
  | nil => rfl
  | cons p l ih =>
      obtain ⟨k, v⟩ := p
      simp [PairList.ofList, PairList.toList, ih]

theorem writeMapPtrElems_eq_writePairs (o : Endianness) (ps : List (Value × (Nat × Value))) :
    writeMapPtrElems o ps =
      writePairs o (PairList.ofList (ps.map (fun p => (p.1, p.2.2)))) := by
  induction ps with
  | nil => rfl
  | cons p ps ih =>
      obtain ⟨k, a, v⟩ := p
      simp [writeMapPtrElems, writePairs, PairList.ofList, ih]

theorem freshPtrPairs_proj : ∀ (ps : PairList) (base : Nat),
    (freshPtrPairs base ps).map (fun p => (p.1, p.2.2)) = ps.toList
  | .nil, _ => rfl
  | .cons k v ps, base => by
      simp [freshPtrPairs, PairList.toList, freshPtrPairs_proj ps (base + 1)]

theorem freshPtrPairs_map_addr : ∀ (ps : PairList) (base : Nat),
    (freshPtrPairs base ps).map (fun p => p.2.1) = List.range' base (lengthPL ps)
  | .nil, _ => rfl
  | .cons k v ps, base => by
      simp [freshPtrPairs, lengthPL, List.range', freshPtrPairs_map_addr ps (base + 1)]

/-- Every successfully encoded field's octets sit contiguously inside the
record payload produced by the concatenating field writer. -/
theorem writeList_infix (o : Endianness) : ∀ (fs : ValueList) (payload : List Nat),
    writeList o fs = .ok payload → ∀ f ∈ fs.toList, ∀ fb, write o f = .ok fb →
    ∃ pre post, payload = pre ++ (fb ++ post)
  | .nil, payload, he => by
      simp [ValueList.toList]
  | .cons v vs, payload, he => by
      simp only [writeList] at he
      split at he
      · cases he
      · rename_i b hb
        split at he
        · cases he
        · rename_i brest hbrest
          cases he
          intro f hf fb hfb
          simp only [ValueList.toList, List.mem_cons] at hf
          rcases hf with rfl | hf
          · rw [hb] at hfb
            cases hfb
            exact ⟨[], brest, by simp⟩
          · obtain ⟨pre, post, hpp⟩ := writeList_infix o vs brest hbrest f hf fb hfb
            exact ⟨b ++ pre, post, by simp [hpp]⟩

/-- Claim C1: for every supported well-formed value (numeric primitive,
string, wide string, fixed char array, ordered-bool sequence, vector, list,
map, set or user-defined record, with owned-pointer containers carried as
their pointee sequences) and every stream byte order, reading back a stream
produced by writing the value yields a value equal to it, elementwise, and
leaves any trailing stream content unread. -/
theorem claim_round_trip (o : Endianness) (v : Value) (enc rest : List Nat)
    (hwf : wf v = true) (he : write o v = .ok enc) :
    read o (shapeOf v) (enc ++ rest) = .ok (v, rest) :=
  read_write_aux o v hwf enc he rest

theorem claim_round_trip_witness :
    wf demoValue = true
    ∧ write .big demoValue = .ok
        [31, 0, 114, 1, 0, 0, 0, 7, 8, 0, 2, 72, 105, 20, 0, 2, 1, 0, 9, 0, 2, 0, 72, 38,
         3, 8, 0, 4, 72, 101, 121, 0, 22, 0, 2, 31, 0, 9, 1, 0, 1, 1, 0, 1, 1, 7, 209, 31,
         0, 9, 1, 0, 2, 1, 0, 2, 1, 7, 210, 21, 0, 2, 1, 0, 0, 0, 0, 31, 0, 9, 1, 0, 1, 1,
         0, 1, 1, 7, 209, 1, 0, 0, 0, 1, 31, 0, 9, 1, 0, 2, 1, 0, 2, 1, 7, 210, 23, 0, 2,
         1, 0, 0, 0, 1, 1, 0, 0, 0, 2, 20, 0, 1, 1, 0, 0, 0, 3]
    ∧ read .big (shapeOf demoValue)
        ([31, 0, 114, 1, 0, 0, 0, 7, 8, 0, 2, 72, 105, 20, 0, 2, 1, 0, 9, 0, 2, 0, 72, 38,
          3, 8, 0, 4, 72, 101, 121, 0, 22, 0, 2, 31, 0, 9, 1, 0, 1, 1, 0, 1, 1, 7, 209, 31,
          0, 9, 1, 0, 2, 1, 0, 2, 1, 7, 210, 21, 0, 2, 1, 0, 0, 0, 0, 31, 0, 9, 1, 0, 1, 1,
          0, 1, 1, 7, 209, 1, 0, 0, 0, 1, 31, 0, 9, 1, 0, 2, 1, 0, 2, 1, 7, 210, 23, 0, 2,
          1, 0, 0, 0, 1, 1, 0, 0, 0, 2, 20, 0, 1, 1, 0, 0, 0, 3] ++ [99]) =
        .ok (demoValue, [99]) :=
  ⟨rfl, rfl,
    claim_round_trip .big demoValue
      [31, 0, 114, 1, 0, 0, 0, 7, 8, 0, 2, 72, 105, 20, 0, 2, 1, 0, 9, 0, 2, 0, 72, 38,
       3, 8, 0, 4, 72, 101, 121, 0, 22, 0, 2, 31, 0, 9, 1, 0, 1, 1, 0, 1, 1, 7, 209, 31,
       0, 9, 1, 0, 2, 1, 0, 2, 1, 7, 210, 21, 0, 2, 1, 0, 0, 0, 0, 31, 0, 9, 1, 0, 1, 1,
       0, 1, 1, 7, 209, 1, 0, 0, 0, 1, 31, 0, 9, 1, 0, 2, 1, 0, 2, 1, 7, 210, 23, 0, 2,
       1, 0, 0, 0, 1, 1, 0, 0, 0, 2, 20, 0, 1, 1, 0, 0, 0, 3] [99] rfl rfl⟩

/-- Claim C2: a `DataV2` record (`data = 111`, `dataNew = 222`) decoded
against the older `DataV1` schema yields `data = 111`; the extra trailing
octets inside the `USER_DEFINED` payload are skipped so reading resumes
exactly at the next stream value, no error is reported and the healthy flag
remains set. -/
theorem claim_forward_compat :
    write .big (dataV2 111 222) = .ok [31, 0, 10, 1, 0, 0, 0, 111, 1, 0, 0, 0, 222]
    ∧ read .big shapeV1 ([31, 0, 10, 1, 0, 0, 0, 111, 1, 0, 0, 0, 222] ++ [99]) =
        .ok (dataV1 111, [99])
    ∧ isHealthy (read .big shapeV1 [31, 0, 10, 1, 0, 0, 0, 111, 1, 0, 0, 0, 222]) = true :=
  ⟨rfl, rfl, rfl⟩

/-- Claim C3: a `DataV1` record (`data = 111`) decoded against the newer
`DataV2` schema yields `data = 111` with the missing trailing field left at
its default `dataNew = 0`; the field read attempted past the end of the
record payload returns its default without consuming input and without
raising an error, and the healthy flag remains set. -/
theorem claim_backward_compat :
    write .big (dataV1 111) = .ok [31, 0, 5, 1, 0, 0, 0, 111]
    ∧ read .big shapeV2 [31, 0, 5, 1, 0, 0, 0, 111] = .ok (dataV2 111 0, [])
    ∧ readFields .big (.cons (.literal 4) .nil) [] = .ok (.cons (.literal 4 0) .nil, [])
    ∧ isHealthy (read .big shapeV2 [31, 0, 5, 1, 0, 0, 0, 111]) = true :=
  ⟨rfl, rfl, rfl, rfl⟩

/-- Claim C4: the 16-bit size field of an encoded user-defined record equals
the exact octet count of the payload between the size field and the start of
the next wire value (the size field itself is two octets and decodes back to
the payload length), and every successfully encoded field — a nested record's
`USER_DEFINED` blob included — lies contiguously within that payload span. -/
theorem claim_length_truth (o : Endianness) (fs : ValueList) (payload : List Nat)
    (he : writeList o fs = .ok payload) (hlen : payload.length ≤ 65535) :
    write o (.record fs) = .ok (USER_DEFINED :: (ordBytes o 2 payload.length ++ payload))
    ∧ (ordBytes o 2 payload.length).length = 2
    ∧ ordNat o (ordBytes o 2 payload.length) = payload.length
    ∧ ∀ f ∈ fs.toList, ∀ fb, write o f = .ok fb →
        ∃ pre post, payload = pre ++ (fb ++ post) := by
  refine ⟨?_, ordBytes_length o 2 payload.length,
    ordNat_ordBytes o 2 payload.length (by norm_num; omega),
    writeList_infix o fs payload he⟩
  simp [write, he, hlen]

theorem claim_length_truth_witness :
    writeList .big (.cons (.literal 2 5) (.cons (.record (.cons (.literal 1 7) .nil)) .nil)) =
      .ok [1, 0, 5, 31, 0, 2, 1, 7]
    ∧ ([1, 0, 5, 31, 0, 2, 1, 7] : List Nat).length ≤ 65535
    ∧ (write .big (.record (.cons (.literal 2 5) (.cons (.record (.cons (.literal 1 7) .nil)) .nil))) =
        .ok (USER_DEFINED ::
          (ordBytes .big 2 ([1, 0, 5, 31, 0, 2, 1, 7] : List Nat).length ++
            [1, 0, 5, 31, 0, 2, 1, 7]))
      ∧ (ordBytes .big 2 ([1, 0, 5, 31, 0, 2, 1, 7] : List Nat).length).length = 2
      ∧ ordNat .big (ordBytes .big 2 ([1, 0, 5, 31, 0, 2, 1, 7] : List Nat).length) =
          ([1, 0, 5, 31, 0, 2, 1, 7] : List Nat).length
      ∧ ∀ f ∈ (ValueList.cons (Value.literal 2 5)
            (.cons (.record (.cons (.literal 1 7) .nil)) .nil)).toList,
          ∀ fb, write .big f = .ok fb →
          ∃ pre post, ([1, 0, 5, 31, 0, 2, 1, 7] : List Nat) = pre ++ (fb ++ post)) :=
  ⟨rfl, by decide,
    claim_length_truth .big
      (.cons (.literal 2 5) (.cons (.record (.cons (.literal 1 7) .nil)) .nil))
      [1, 0, 5, 31, 0, 2, 1, 7] rfl (by decide)⟩

/-- Claim C5: a numeric primitive of any width is emitted as exactly one
`LITERAL` tag octet followed by exactly `width` octets with no padding; under
the default big-endian stream order those octets are the network-order image
of the value; the emitted wire octets do not depend on the host byte order
(the writer byte-swaps when host and stream order differ), and a reader of
any host order recovers the original value. -/
theorem claim_literal_network_order (host host2 stream : Endianness) (w n : Nat)
    (h : n < 256 ^ w) :
    writePrim host stream w n = writePrim host2 stream w n
    ∧ writePrim host .big w n = beBytes w n
    ∧ (writePrim host stream w n).length = w
    ∧ write stream (.literal w n) = .ok (LITERAL :: writePrim host stream w n)
    ∧ readPrim host2 stream (writePrim host stream w n) = n := by
  refine ⟨?_, ?_, ?_, ?_, readPrim_writePrim host host2 stream w n h⟩
  · rw [writePrim_eq_ordBytes, writePrim_eq_ordBytes]
  · rw [writePrim_eq_ordBytes]
    rfl
  · rw [writePrim_eq_ordBytes]
    exact ordBytes_length stream w n
  · rw [writePrim_eq_ordBytes]
    simp [write]

theorem claim_literal_network_order_witness :
    (287454020 : Nat) < 256 ^ 4
    ∧ (writePrim .little .big 4 287454020 = writePrim .big .big 4 287454020
      ∧ writePrim .little .big 4 287454020 = beBytes 4 287454020
      ∧ (writePrim .little .big 4 287454020).length = 4
      ∧ write .big (.literal 4 287454020) = .ok (LITERAL :: writePrim .little .big 4 287454020)
      ∧ readPrim .big .big (writePrim .little .big 4 287454020) = 287454020) :=
  ⟨by decide, claim_literal_network_order .little .big .big 4 287454020 (by decide)⟩

/-- Claim C6: every string and container shape accepts up to 65,535
elements/code-units — the encoding then carries the exact 16-bit count — and
refuses 65,536 or more with `SizeOverflow` instead of truncating or wrapping
the size field. -/
theorem claim_size_limit (o : Endianness) :
    (∀ cs : List Nat, cs.length ≤ 65535 →
      write o (.str cs) = .ok (STRING :: (ordBytes o 2 cs.length ++ cs)))
    ∧ (∀ cs : List Nat, 65536 ≤ cs.length → write o (.str cs) = .error .sizeOverflow)
    ∧ (∀ cs : List Nat, cs.length ≤ 65535 →
      write o (.wstr cs) = .ok (WSTRING :: (ordBytes o 2 cs.length ++ wideBytes o cs)))
    ∧ (∀ cs : List Nat, 65536 ≤ cs.length → write o (.wstr cs) = .error .sizeOverflow)
    ∧ (∀ cap : Nat, ∀ cs : List Nat, cs.length + 1 ≤ 65535 →
      write o (.charArr cap cs) =
        .ok (STRING :: (ordBytes o 2 (cs.length + 1) ++ (cs ++ [0]))))
    ∧ (∀ cap : Nat, ∀ cs : List Nat, 65536 ≤ cs.length + 1 →
      write o (.charArr cap cs) = .error .sizeOverflow)
    ∧ (∀ bs : List Bool, bs.length ≤ 65535 →
      write o (.vecBool bs) = .ok (VECTOR :: (ordBytes o 2 bs.length ++ bs.map boolOctet)))
    ∧ (∀ bs : List Bool, 65536 ≤ bs.length → write o (.vecBool bs) = .error .sizeOverflow)
    ∧ (∀ elt es body, lengthVL es ≤ 65535 → writeList o es = .ok body →
      write o (.vec elt es) = .ok (VECTOR :: (ordBytes o 2 (lengthVL es) ++ body)))
    ∧ (∀ elt es, 65536 ≤ lengthVL es → write o (.vec elt es) = .error .sizeOverflow)
    ∧ (∀ elt es body, lengthVL es ≤ 65535 → writeList o es = .ok body →
      write o (.lst elt es) = .ok (LIST :: (ordBytes o 2 (lengthVL es) ++ body)))
    ∧ (∀ elt es, 65536 ≤ lengthVL es → write o (.lst elt es) = .error .sizeOverflow)
    ∧ (∀ kelt velt ps body, lengthPL ps ≤ 65535 → writePairs o ps = .ok body →
      write o (.mp kelt velt ps) = .ok (MAP :: (ordBytes o 2 (lengthPL ps) ++ body)))
    ∧ (∀ kelt velt ps, 65536 ≤ lengthPL ps → write o (.mp kelt velt ps) = .error .sizeOverflow)
    ∧ (∀ elt es body, lengthVL es ≤ 65535 → writeList o es = .ok body →
      write o (.st elt es) = .ok (SET :: (ordBytes o 2 (lengthVL es) ++ body)))
    ∧ (∀ elt es, 65536 ≤ lengthVL es → write o (.st elt es) = .error .sizeOverflow) := by
  refine ⟨?_, ?_, ?_, ?_, ?_, ?_, ?_, ?_, ?_, ?_, ?_, ?_, ?_, ?_, ?_, ?_⟩
  · intro cs h
    simp [write, h]
  · intro cs h
    simp [write, show ¬ cs.length ≤ 65535 by omega]
  · intro cs h
    simp [write, h]
  · intro cs h
    simp [write, show ¬ cs.length ≤ 65535 by omega]
  · intro cap cs h
    simp [write, h]
  · intro cap cs h
    simp [write, show ¬ cs.length + 1 ≤ 65535 by omega]
  · intro bs h
    simp [write, h]
  · intro bs h
    simp [write, show ¬ bs.length ≤ 65535 by omega]
  · intro elt es body h hb
    simp [write, h, hb]
  · intro elt es h
    simp [write, show ¬ lengthVL es ≤ 65535 by omega]
  · intro elt es body h hb
    simp [write, h, hb]
  · intro elt es h
    simp [write, show ¬ lengthVL es ≤ 65535 by omega]
  · intro kelt velt ps body h hb
    simp [write, h, hb]
  · intro kelt velt ps h
    simp [write, show ¬ lengthPL ps ≤ 65535 by omega]
  · intro elt es body h hb
    simp [write, h, hb]
  · intro elt es h
    simp [write, show ¬ lengthVL es ≤ 65535 by omega]

theorem claim_size_limit_witness :
    (List.replicate 65535 (0 : Nat)).length ≤ 65535
    ∧ write .big (.str (List.replicate 65535 (0 : Nat))) =
        .ok (STRING :: (ordBytes .big 2 (List.replicate 65535 (0 : Nat)).length ++
          List.replicate 65535 (0 : Nat)))
    ∧ 65536 ≤ (List.replicate 65536 (0 : Nat)).length
    ∧ write .big (.str (List.replicate 65536 (0 : Nat))) = .error .sizeOverflow
    ∧ 65536 ≤ lengthVL (replicateVL 65536 (.literal 1 0))
    ∧ write .big (.vec (.literal 1) (replicateVL 65536 (.literal 1 0))) =
        .error .sizeOverflow :=
  ⟨by rw [List.length_replicate],
    (claim_size_limit .big).1 (List.replicate 65535 0) (by rw [List.length_replicate]),
    by rw [List.length_replicate],
    (claim_size_limit .big).2.1 (List.replicate 65536 0) (by rw [List.length_replicate]),
    by rw [lengthVL_replicateVL],
    (claim_size_limit .big).2.2.2.2.2.2.2.2.2.1 (.literal 1) (replicateVL 65536 (.literal 1 0))
      (by rw [lengthVL_replicateVL])⟩

/-- Claim C7: a fixed char array decodes by reading the `STRING` tag and the
16-bit size (which the encoder set to `strlen + 1`, terminator included); a
size exceeding the receiving buffer capacity fails with `StringTooLong`,
otherwise exactly `size` octets are read into the buffer. -/
theorem claim_char_array (o : Endianness) (cap n : Nat) (cs xs extra rest : List Nat) :
    (cs.length + 1 ≤ 65535 →
      write o (.charArr cap cs) =
        .ok (STRING :: (ordBytes o 2 (cs.length + 1) ++ (cs ++ [0]))))
    ∧ (n ≤ 65535 → cap < n →
      read o (.charArr cap) (STRING :: (ordBytes o 2 n ++ extra)) = .error .stringTooLong)
    ∧ (n ≤ 65535 → n ≤ cap → xs.length = n →
      read o (.charArr cap) (STRING :: (ordBytes o 2 n ++ (xs ++ rest))) =
        .ok (.charArr cap (xs.take (n - 1)), rest)) := by
  refine ⟨?_, ?_, ?_⟩
  · intro h
    simp [write, h]
  · intro h1 h2
    simp [read, readTag_cons, readSize_ordBytes o n extra (by omega), h2]
  · intro h1 h2 h3
    simp [read, readTag_cons, readSize_ordBytes o n _ (by omega),
          show ¬ cap < n by omega, readBytes_append n xs rest h3]

theorem claim_char_array_witness :
    (33 : Nat) ≤ 65535
    ∧ (32 : Nat) < 33
    ∧ read .big (.charArr 32) (STRING :: (ordBytes .big 2 33 ++ List.replicate 33 65)) =
        .error .stringTooLong
    ∧ (3 : Nat) ≤ 65535
    ∧ (3 : Nat) ≤ 32
    ∧ ([72, 105, 0] : List Nat).length = 3
    ∧ read .big (.charArr 32) (STRING :: (ordBytes .big 2 3 ++ ([72, 105, 0] ++ []))) =
        .ok (.charArr 32 (([72, 105, 0] : List Nat).take (3 - 1)), []) :=
  ⟨by decide, by decide,
    (claim_char_array .big 32 33 [] [] (List.replicate 33 65) []).2.1 (by decide) (by decide),
    by decide, by decide, by decide,
    (claim_char_array .big 32 3 [] [72, 105, 0] [] []).2.2 (by decide) (by decide) (by decide)⟩

/-- Claim C8: every container of owned pointers — `std::vector`, `std::list`,
`std::set` of `T*` and `std::map` with `T*` mapped values — serialises the
pointees, not the pointer representations (containers with equal pointee
sequences and arbitrary addresses encode identically), and decoding allocates
one fresh owned instance per element — pairwise distinct allocation
identities — whose values round-trip the original pointees (and, for the map,
the original keys). -/
theorem claim_ptr_containers (o : Endianness) (elt kelt velt : Shape)
    (ps qs : List (Nat × Value)) (mps mqs : List (Value × (Nat × Value)))
    (body mbody rest : List Nat)
    (hwf : wfList (ValueList.ofList (ps.map Prod.snd)) = true)
    (hsh : sameShape elt (ValueList.ofList (ps.map Prod.snd)) = true)
    (hn : ps.length ≤ 65535)
    (hb : writePtrElems o ps = .ok body)
    (hq : qs.map Prod.snd = ps.map Prod.snd)
    (hmwf : wfPairs (PairList.ofList (mps.map (fun p => (p.1, p.2.2)))) = true)
    (hmsh : sameShapePairs kelt velt
      (PairList.ofList (mps.map (fun p => (p.1, p.2.2)))) = true)
    (hmn : mps.length ≤ 65535)
    (hmb : writeMapPtrElems o mps = .ok mbody)
    (hmq : mqs.map (fun p => (p.1, p.2.2)) = mps.map (fun p => (p.1, p.2.2))) :
    (writeVectorPtr o ps = .ok (VECTOR :: (ordBytes o 2 ps.length ++ body))
      ∧ writeVectorPtr o qs = writeVectorPtr o ps
      ∧ readVectorPtr o elt ((VECTOR :: (ordBytes o 2 ps.length ++ body)) ++ rest) =
          .ok (freshPtrs 0 (ValueList.ofList (ps.map Prod.snd)), rest))
    ∧ (writeListPtr o ps = .ok (LIST :: (ordBytes o 2 ps.length ++ body))
      ∧ writeListPtr o qs = writeListPtr o ps
      ∧ readListPtr o elt ((LIST :: (ordBytes o 2 ps.length ++ body)) ++ rest) =
          .ok (freshPtrs 0 (ValueList.ofList (ps.map Prod.snd)), rest))
    ∧ (writeSetPtr o ps = .ok (SET :: (ordBytes o 2 ps.length ++ body))
      ∧ writeSetPtr o qs = writeSetPtr o ps
      ∧ readSetPtr o elt ((SET :: (ordBytes o 2 ps.length ++ body)) ++ rest) =
          .ok (freshPtrs 0 (ValueList.ofList (ps.map Prod.snd)), rest))
    ∧ (writeMapPtr o mps = .ok (MAP :: (ordBytes o 2 mps.length ++ mbody))
      ∧ writeMapPtr o mqs = writeMapPtr o mps
      ∧ readMapPtr o kelt velt ((MAP :: (ordBytes o 2 mps.length ++ mbody)) ++ rest) =
          .ok (freshPtrPairs 0 (PairList.ofList (mps.map (fun p => (p.1, p.2.2)))), rest))
    ∧ (freshPtrs 0 (ValueList.ofList (ps.map Prod.snd))).map Prod.snd = ps.map Prod.snd
    ∧ (freshPtrs 0 (ValueList.ofList (ps.map Prod.snd))).map Prod.fst =
        List.range' 0 ps.length
    ∧ ((freshPtrs 0 (ValueList.ofList (ps.map Prod.snd))).map Prod.fst).Nodup
    ∧ (freshPtrPairs 0 (PairList.ofList (mps.map (fun p => (p.1, p.2.2))))).map
        (fun p => (p.1, p.2.2)) = mps.map (fun p => (p.1, p.2.2))
    ∧ (freshPtrPairs 0 (PairList.ofList (mps.map (fun p => (p.1, p.2.2))))).map
        (fun p => p.2.1) = List.range' 0 mps.length
    ∧ ((freshPtrPairs 0 (PairList.ofList (mps.map (fun p => (p.1, p.2.2))))).map
        (fun p => p.2.1)).Nodup := by
  have hlq : qs.length = ps.length := by
    have hmap := congrArg List.length hq
    simpa using hmap
  have hlmq : mqs.length = mps.length := by
    have hmap := congrArg List.length hmq
    simpa using hmap
  have hb2 : writeList o (ValueList.ofList (ps.map Prod.snd)) = .ok body := by
    rw [← writePtrElems_eq_writeList]
    exact hb
  have hmb2 : writePairs o (PairList.ofList (mps.map (fun p => (p.1, p.2.2)))) = .ok mbody := by
    rw [← writeMapPtrElems_eq_writePairs]
    exact hmb
  have hlen : lengthVL (ValueList.ofList (ps.map Prod.snd)) = ps.length := by
    rw [lengthVL_ofList, List.length_map]
  have hmlen : lengthPL (PairList.ofList (mps.map (fun p => (p.1, p.2.2)))) = mps.length := by
    rw [lengthPL_ofList, List.length_map]
  have hwvec : write o (.vec elt (ValueList.ofList (ps.map Prod.snd))) =
      .ok (VECTOR :: (ordBytes o 2 ps.length ++ body)) := by
    simp [write, hb2, hlen, hn]
  have hwlst : write o (.lst elt (ValueList.ofList (ps.map Prod.snd))) =
      .ok (LIST :: (ordBytes o 2 ps.length ++ body)) := by
    simp [write, hb2, hlen, hn]
  have hwst : write o (.st elt (ValueList.ofList (ps.map Prod.snd))) =
      .ok (SET :: (ordBytes o 2 ps.length ++ body)) := by
    simp [write, hb2, hlen, hn]
  have hwmp : write o (.mp kelt velt (PairList.ofList (mps.map (fun p => (p.1, p.2.2))))) =
      .ok (MAP :: (ordBytes o 2 mps.length ++ mbody)) := by
    simp [write, hmb2, hmlen, hmn]
  have hrvec := read_write_aux o (.vec elt (ValueList.ofList (ps.map Prod.snd)))
    (by simp [wf, hwf, hsh]) (VECTOR :: (ordBytes o 2 ps.length ++ body)) hwvec rest
  have hrlst := read_write_aux o (.lst elt (ValueList.ofList (ps.map Prod.snd)))
    (by simp [wf, hwf, hsh]) (LIST :: (ordBytes o 2 ps.length ++ body)) hwlst rest
  have hrst := read_write_aux o (.st elt (ValueList.ofList (ps.map Prod.snd)))
    (by simp [wf, hwf, hsh]) (SET :: (ordBytes o 2 ps.length ++ body)) hwst rest
  have hrmp := read_write_aux o
    (.mp kelt velt (PairList.ofList (mps.map (fun p => (p.1, p.2.2)))))
    (by simp [wf, hmwf, hmsh]) (MAP :: (ordBytes o 2 mps.length ++ mbody)) hwmp rest
  simp only [shapeOf, List.cons_append, List.append_assoc] at hrvec hrlst hrst hrmp
  refine ⟨⟨?_, ?_, ?_⟩, ⟨?_, ?_, ?_⟩, ⟨?_, ?_, ?_⟩, ⟨?_, ?_, ?_⟩, ?_, ?_, ?_, ?_, ?_, ?_⟩
  · simp [writeVectorPtr, hn, hb]
  · simp [writeVectorPtr, writePtrElems_eq_writeList, hq, hlq]
  · simp [readVectorPtr, hrvec]
  · simp [writeListPtr, hn, hb]
  · simp [writeListPtr, writePtrElems_eq_writeList, hq, hlq]
  · simp [readListPtr, hrlst]
  · simp [writeSetPtr, hn, hb]
  · simp [writeSetPtr, writePtrElems_eq_writeList, hq, hlq]
  · simp [readSetPtr, hrst]
  · simp [writeMapPtr, hmn, hmb]
  · simp [writeMapPtr, writeMapPtrElems_eq_writePairs, hmq, hlmq]
  · simp [readMapPtr, hrmp]
  · rw [freshPtrs_map_snd, toList_ofList]
  · rw [freshPtrs_map_fst, lengthVL_ofList, List.length_map]
  · rw [freshPtrs_map_fst]
    exact List.nodup_range' _ _
  · rw [freshPtrPairs_proj, toListPairs_ofList]
  · rw [freshPtrPairs_map_addr, lengthPL_ofList, List.length_map]
  · rw [freshPtrPairs_map_addr]
    exact List.nodup_range' _ _

theorem claim_ptr_containers_witness :
    wfList (ValueList.ofList (demoPtrs.map Prod.snd)) = true
    ∧ sameShape dateShape (ValueList.ofList (demoPtrs.map Prod.snd)) = true
    ∧ demoPtrs.length ≤ 65535
    ∧ writePtrElems .big demoPtrs = .ok demoPtrBody
    ∧ demoPtrsB.map Prod.snd = demoPtrs.map Prod.snd
    ∧ wfPairs (PairList.ofList (demoMapPtrs.map (fun p => (p.1, p.2.2)))) = true
    ∧ sameShapePairs (.literal 4) dateShape
        (PairList.ofList (demoMapPtrs.map (fun p => (p.1, p.2.2)))) = true
    ∧ demoMapPtrs.length ≤ 65535
    ∧ writeMapPtrElems .big demoMapPtrs = .ok demoMapPtrBody
    ∧ demoMapPtrsB.map (fun p => (p.1, p.2.2)) = demoMapPtrs.map (fun p => (p.1, p.2.2))
    ∧ ((writeVectorPtr .big demoPtrs =
          .ok (VECTOR :: (ordBytes .big 2 demoPtrs.length ++ demoPtrBody))
        ∧ writeVectorPtr .big demoPtrsB = writeVectorPtr .big demoPtrs
        ∧ readVectorPtr .big dateShape
            ((VECTOR :: (ordBytes .big 2 demoPtrs.length ++ demoPtrBody)) ++ []) =
            .ok (freshPtrs 0 (ValueList.ofList (demoPtrs.map Prod.snd)), []))
      ∧ (writeListPtr .big demoPtrs =
          .ok (LIST :: (ordBytes .big 2 demoPtrs.length ++ demoPtrBody))
        ∧ writeListPtr .big demoPtrsB = writeListPtr .big demoPtrs
        ∧ readListPtr .big dateShape
            ((LIST :: (ordBytes .big 2 demoPtrs.length ++ demoPtrBody)) ++ []) =
            .ok (freshPtrs 0 (ValueList.ofList (demoPtrs.map Prod.snd)), []))
      ∧ (writeSetPtr .big demoPtrs =
          .ok (SET :: (ordBytes .big 2 demoPtrs.length ++ demoPtrBody))
        ∧ writeSetPtr .big demoPtrsB = writeSetPtr .big demoPtrs
        ∧ readSetPtr .big dateShape
            ((SET :: (ordBytes .big 2 demoPtrs.length ++ demoPtrBody)) ++ []) =
            .ok (freshPtrs 0 (ValueList.ofList (demoPtrs.map Prod.snd)), []))
      ∧ (writeMapPtr .big demoMapPtrs =
          .ok (MAP :: (ordBytes .big 2 demoMapPtrs.length ++ demoMapPtrBody))
        ∧ writeMapPtr .big demoMapPtrsB = writeMapPtr .big demoMapPtrs
        ∧ readMapPtr .big (.literal 4) dateShape
            ((MAP :: (ordBytes .big 2 demoMapPtrs.length ++ demoMapPtrBody)) ++ []) =
            .ok (freshPtrPairs 0
              (PairList.ofList (demoMapPtrs.map (fun p => (p.1, p.2.2)))), []))
      ∧ (freshPtrs 0 (ValueList.ofList (demoPtrs.map Prod.snd))).map Prod.snd =
          demoPtrs.map Prod.snd
      ∧ (freshPtrs 0 (ValueList.ofList (demoPtrs.map Prod.snd))).map Prod.fst =
          List.range' 0 demoPtrs.length
      ∧ ((freshPtrs 0 (ValueList.ofList (demoPtrs.map Prod.snd))).map Prod.fst).Nodup
      ∧ (freshPtrPairs 0 (PairList.ofList (demoMapPtrs.map (fun p => (p.1, p.2.2))))).map
          (fun p => (p.1, p.2.2)) = demoMapPtrs.map (fun p => (p.1, p.2.2))
      ∧ (freshPtrPairs 0 (PairList.ofList (demoMapPtrs.map (fun p => (p.1, p.2.2))))).map
          (fun p => p.2.1) = List.range' 0 demoMapPtrs.length
      ∧ ((freshPtrPairs 0 (PairList.ofList (demoMapPtrs.map (fun p => (p.1, p.2.2))))).map
          (fun p => p.2.1)).Nodup) :=
  ⟨rfl, rfl, by decide, rfl, rfl, rfl, rfl, by decide, rfl, rfl,
    claim_ptr_containers .big dateShape (.literal 4) dateShape demoPtrs demoPtrsB
      demoMapPtrs demoMapPtrsB demoPtrBody demoMapPtrBody []
      rfl rfl (by decide) rfl rfl rfl rfl (by decide) rfl rfl⟩

/-- Claim C9: an ordered sequence of booleans is encoded as the `VECTOR` tag
(0x14), the 16-bit element count, then exactly one octet per element — 0x00
for false, 0x01 for true — and decoding that stream restores the same boolean
sequence. -/
theorem claim_vector_bool (bs : List Bool) (rest : List Nat) (h : bs.length ≤ 65535) :
    write .big (.vecBool bs) = .ok (VECTOR :: (ordBytes .big 2 bs.length ++ bs.map boolOctet))
    ∧ read .big .vecBool
        ((VECTOR :: (ordBytes .big 2 bs.length ++ bs.map boolOctet)) ++ rest) =
        .ok (.vecBool bs, rest) := by
  constructor
  · simp [write, h]
  · have hrt := read_write_aux .big (.vecBool bs) (by simp [wf])
      (VECTOR :: (ordBytes .big 2 bs.length ++ bs.map boolOctet)) (by simp [write, h]) rest
    simpa [shapeOf] using hrt

theorem claim_vector_bool_witness :
    ([false, true] : List Bool).length ≤ 65535
    ∧ write .big (.vecBool [false, true]) = .ok [20, 0, 2, 0, 1]
    ∧ read .big .vecBool ([20, 0, 2, 0, 1] ++ []) = .ok (.vecBool [false, true], []) :=
  ⟨by decide, (claim_vector_bool [false, true] [] (by decide)).1,
    (claim_vector_bool [false, true] [] (by decide)).2⟩

/-- Claim C10: an enum class with an explicitly specified underlying integer
type (`Color : uint16_t`, `Log::LogType : uint16_t`) is written as a numeric
primitive of the underlying type's width — one `LITERAL` tag octet plus two
value octets, byte-swapped by stream order like any integer — and reading
restores the original enumerator. -/
theorem claim_enum_underlying (o host : Endianness) (c : Color) (t : LogType)
    (rest : List Nat) :
    writeColor o c = .ok (LITERAL :: ordBytes o 2 c.val)
    ∧ (ordBytes o 2 c.val).length = 2
    ∧ ordBytes o 2 c.val = writePrim host o 2 c.val
    ∧ readColor o ((LITERAL :: ordBytes o 2 c.val) ++ rest) = .ok (c, rest)
    ∧ writeLogType o t = .ok (LITERAL :: ordBytes o 2 t.val)
    ∧ readLogType o ((LITERAL :: ordBytes o 2 t.val) ++ rest) = .ok (t, rest) := by
  have hrc := read_write_aux o (.literal 2 c.val)
    (by cases c <;> decide) (LITERAL :: ordBytes o 2 c.val) rfl rest
  have hrt := read_write_aux o (.literal 2 t.val)
    (by cases t <;> decide) (LITERAL :: ordBytes o 2 t.val) rfl rest
  simp only [shapeOf, List.cons_append] at hrc hrt
  refine ⟨by simp [writeColor, write], ordBytes_length o 2 c.val,
    (writePrim_eq_ordBytes host o 2 c.val).symm, ?_, by simp [writeLogType, write], ?_⟩
  · simp only [readColor, List.cons_append, hrc]
    cases c <;> rfl
  · simp only [readLogType, List.cons_append, hrt]
    cases t <;> rfl

end serialize
